import Mathlib

/-!
Verification of the dnsfserv repository: a DNS file server (dnsfserv.go) and
its client library (dnsfservget).  The Go sources are shallowly embedded:
bytes are `Nat` (< 256 in use), strings are `List Char`, and external
library calls (file system, sockets, `net.ParseIP`/`net.IP.String`,
`dnsmessage` wire packing) are abstracted to their already-parsed values,
as noted at each definition.
-/

set_option maxRecDepth 4000

/-- Equality of Except values is decidable when it is on both sides. -/
instance {ε α : Type} [DecidableEq ε] [DecidableEq α] : DecidableEq (Except ε α) := fun x y =>
  match x, y with
  | .ok a, .ok b => decidable_of_iff (a = b) (by simp)
  | .error e, .error f => decidable_of_iff (e = f) (by simp)
  | .ok _, .error _ => isFalse fun h => Except.noConfusion h
  | .error _, .ok _ => isFalse fun h => Except.noConfusion h

/-- QType is a DNS query type (dnsfservget.go: `type QType string`). -/
abbrev QType := String

/-- Supported QTypes (dnsfservget.go). -/
def TypeA : QType := "A"

/-- AAAA query type constant (dnsfservget.go). -/
def TypeAAAA : QType := "AAAA"

/-- TXT query type constant (dnsfservget.go). -/
def TypeTXT : QType := "TXT"

/-- MaxDecode is the maximum amount of decoded data decoded by
DecodeResponse (dnsfservget.go). -/
def MaxDecode : Nat := 160

/-- Errors produced by the dnsfservget decoding functions.  Each
constructor corresponds to one `error` value constructed in the Go
source. -/
inductive GetErr
  /-- `ErrorUnsupportedQType` (dnsfservget.go) -/
  | unsupportedQType (t : QType)
  /-- decodeA: `invalid IP address %q` (net.ParseIP returned nil) -/
  | invalidIPAddr
  /-- decodeA: `unable to parse IP address %s` (To4/To16 returned nil) -/
  | unparseableIPAddr
  /-- decodeA: `buffer too small for record of type %s` -/
  | bufferTooSmall (t : QType)
  /-- decodeTXT: `buffer too small for decoded payload` -/
  | bufferTooSmallTXT
  /-- decodeTXT: `decoding TXT record` -/
  | badBase64
  /-- AppendQuery: `error processing %q for query` (dnsmessage.NewName failed) -/
  | nameError
  deriving DecidableEq

/-- PayloadSize returns the maximum number of payload bytes returnable by a
query of type q (dnsfservget.go, `QType.PayloadSize`). -/
def PayloadSize (q : QType) : Except GetErr Nat :=
  if q = TypeA then .ok 3
  else if q = TypeAAAA then .ok 8
  else if q = TypeTXT then .ok 160
  else .error (.unsupportedQType q)

/-!
Base-36 integer formatting and parsing.  The Go client renders the file
offset with `strconv.FormatUint(uint64(g.off), 36)` and the server parses
it back with `strconv.ParseUint(parts[0], 36, 64)`.  Both stdlib calls are
translated here: formatting by repeated division (most significant digit
first, digits 0-9 then a-z, `0` for zero), parsing by a left-to-right
fold that rejects the empty string, rejects any character outside the
base-36 alphabet, and rejects values exceeding the 64-bit range.
-/

/-- digitChar36 renders one base-36 digit the way Go strconv does
(0-9 then lowercase a-z). -/
def digitChar36 (d : Nat) : Char :=
  if d < 10 then Char.ofNat (48 + d) else Char.ofNat (87 + d)

/-- digitVal36 is the digit table of Go strconv.ParseUint: ASCII digits,
lowercase and uppercase letters; anything else is a syntax error. -/
def digitVal36 (c : Char) : Option Nat :=
  if '0' ≤ c ∧ c ≤ '9' then some (c.toNat - 48)
  else if 'a' ≤ c ∧ c ≤ 'z' then some (c.toNat - 87)
  else if 'A' ≤ c ∧ c ≤ 'Z' then some (c.toNat - 55)
  else none

/-- formatAux produces the little-endian base-36 digits of n, with fuel to
keep the recursion structural; fuel ≥ n suffices. -/
def formatAux : Nat → Nat → List Nat
  | 0, _ => []
  | _ + 1, 0 => []
  | f + 1, n + 1 => ((n + 1) % 36) :: formatAux f ((n + 1) / 36)

/-- formatUint36 translates `strconv.FormatUint(n, 36)`. -/
def formatUint36 (n : Nat) : List Char :=
  if n = 0 then ['0'] else ((formatAux n n).reverse).map digitChar36

/-- parseUint36 translates `strconv.ParseUint(s, 36, 64)`: empty input and
invalid digits are syntax errors; results above 2^64 - 1 are range
errors.  Go accumulates left to right exactly as this fold does. -/
def parseUint36 (l : List Char) : Option Nat :=
  if l = [] then none
  else
    match l.foldl (fun acc c => acc.bind fun a => (digitVal36 c).map fun d => a * 36 + d)
        (some 0) with
    | none => none
    | some n => if n < 2 ^ 64 then some n else none

/-- toLowerChar models `strings.ToLower` character-wise on the ASCII
range (DNS names and the base-36 alphabet are ASCII). -/
def toLowerChar (c : Char) : Char :=
  if 'A' ≤ c ∧ c ≤ 'Z' then Char.ofNat (c.toNat + 32) else c

/-- splitFirst mirrors `strings.SplitN(s, sep, 2)` for a one-character
separator: the part before the first occurrence, and the rest when the
separator occurs at all. -/
def splitFirst (c : Char) : List Char → List Char × Option (List Char)
  | [] => ([], none)
  | x :: xs =>
    if x = c then ([], some xs)
    else
      let r := splitFirst c xs
      (x :: r.1, r.2)

/-- parseQueryName is the server's inverse query-name parse
(dnsfserv.go `handle`, before the filepath handling): lowercase the
name, take the part before the first '.', split that label at its first
'-', require a non-empty offset part, and parse it as base-36.  Every
failure makes the server drop the query. -/
def parseQueryName (q : List Char) : Option (Nat × List Char) :=
  let ql := q.map toLowerChar
  let labels0 := (splitFirst '.' ql).1
  match (splitFirst '-' labels0).2 with
  | none => none
  | some fname =>
    if (splitFirst '-' labels0).1 = [] then none
    else
      match parseUint36 (splitFirst '-' labels0).1 with
      | none => none
      | some off => some (off, fname)

/-- nextNameStr is the name built by Getter.NextName (dnsfservget.go):
`fmt.Sprintf("%s-%s.%s", strconv.FormatUint(uint64(g.off), 36), g.Name,
g.Domain)`. -/
def nextNameStr (off : Nat) (name domain : List Char) : List Char :=
  formatUint36 off ++ '-' :: (name ++ '.' :: domain)

/-!
Lexical path handling.  The server runs `filepath.Clean(parts[1])` and then
`filepath.Join(fdir, fname)`.  Both are lexical: the composition
normalizes the concatenated path element-wise.  Paths are modelled as
lists of elements (an element is a list of characters, slash-separated in
the Go string form); `cleanElems` performs filepath.Clean's element
processing — drop empty and "." elements, let ".." pop the previous
element, keeping leading ".." of a relative path — and the joined path is
`cleanElems` of the serving-directory elements followed by the filename
elements.
-/

/-- splitSlash splits a path string into its slash-separated elements. -/
def splitSlash : List Char → List (List Char)
  | [] => [[]]
  | c :: rest =>
    let r := splitSlash rest
    if c = '/' then [] :: r
    else (c :: r.headI) :: r.tail

/-- cleanStep processes one path element the way filepath.Clean does on a
relative path. -/
def cleanStep (acc : List (List Char)) (e : List Char) : List (List Char) :=
  if e = [] ∨ e = ['.'] then acc
  else if e = ['.', '.'] then
    if acc = [] ∨ acc.getLast? = some ['.', '.'] then acc ++ [e] else acc.dropLast
  else acc ++ [e]

/-- cleanElems is filepath.Clean at the element level. -/
def cleanElems (l : List (List Char)) : List (List Char) :=
  l.foldl cleanStep []

/-- joinedPath is the element-level value of
`filepath.Join(fdir, filepath.Clean(fname))` as computed by the server:
the serving-directory elements followed by the filename elements, cleaned
lexically. -/
def joinedPath (fdirE : List (List Char)) (fname : List Char) : List (List Char) :=
  cleanElems (fdirE ++ splitSlash fname)

/-!
Raw (unpadded) standard base64, translating Go's
`base64.RawStdEncoding` EncodeToString / Decode as used by the server's
TXT encoder and the client's decodeTXT.  Encoding processes input three
bytes at a time (final groups of one or two bytes become two or three
characters, no padding); decoding processes four characters at a time
(final groups of two or three characters; a trailing single character is
invalid).
-/

/-- b64Char is the standard base64 alphabet. -/
def b64Char (n : Nat) : Char :=
  if n < 26 then Char.ofNat (65 + n)
  else if n < 52 then Char.ofNat (97 + (n - 26))
  else if n < 62 then Char.ofNat (48 + (n - 52))
  else if n = 62 then '+'
  else '/'

/-- b64Val inverts the standard base64 alphabet. -/
def b64Val (c : Char) : Option Nat :=
  if 'A' ≤ c ∧ c ≤ 'Z' then some (c.toNat - 65)
  else if 'a' ≤ c ∧ c ≤ 'z' then some (c.toNat - 71)
  else if '0' ≤ c ∧ c ≤ '9' then some (c.toNat + 4)
  else if c = '+' then some 62
  else if c = '/' then some 63
  else none

/-- b64Encode translates `base64.RawStdEncoding.EncodeToString`. -/
def b64Encode : List Nat → List Char
  | [] => []
  | [a] => [b64Char (a / 4), b64Char (a % 4 * 16)]
  | [a, b] => [b64Char (a / 4), b64Char (a % 4 * 16 + b / 16), b64Char (b % 16 * 4)]
  | a :: b :: d :: rest =>
    b64Char (a / 4) :: b64Char (a % 4 * 16 + b / 16) ::
      b64Char (b % 16 * 4 + d / 64) :: b64Char (d % 64) :: b64Encode rest

/-- b64Decode translates `base64.RawStdEncoding.Decode` (none for any
input Go's decoder rejects: an invalid character or a trailing single
character). -/
def b64Decode : List Char → Option (List Nat)
  | [] => some []
  | [_] => none
  | [c1, c2] => do
    let v1 ← b64Val c1
    let v2 ← b64Val c2
    pure [v1 * 4 + v2 / 16]
  | [c1, c2, c3] => do
    let v1 ← b64Val c1
    let v2 ← b64Val c2
    let v3 ← b64Val c3
    pure [v1 * 4 + v2 / 16, v2 % 16 * 16 + v3 / 4]
  | c1 :: c2 :: c3 :: c4 :: rest => do
    let v1 ← b64Val c1
    let v2 ← b64Val c2
    let v3 ← b64Val c3
    let v4 ← b64Val c4
    let tl ← b64Decode rest
    pure ([v1 * 4 + v2 / 16, v2 % 16 * 16 + v3 / 4, v3 % 4 * 64 + v4] ++ tl)

/-- decodedLen is Go's `RawStdEncoding.DecodedLen(n) = n * 6 / 8`. -/
def decodedLen (n : Nat) : Nat := n * 6 / 8

/-!
Server-side record payload encoders, extracted from the type switch in
dnsfserv.go `handle`.  The Go resource arrays are zero-initialized and
`f.Read` fills a prefix, so a short chunk is zero-padded to the record's
fixed width.
-/

/-- ansAFirstByte is the first byte of an A record response (dnsfserv.go). -/
def ansAFirstByte : Nat := 3

/-- ansAAAAFirstHalf is the first half of an AAAA record response
(dnsfserv.go). -/
def ansAAAAFirstHalf : List Nat := [0x26, 0x00, 0x90, 0x00, 0x53, 0x05, 0xce, 0x00]

/-- ansTXTMax is the maximum amount of plaintext to put in a TXT record
(dnsfserv.go). -/
def ansTXTMax : Nat := 160

/-- padTo pads a chunk with zero bytes to width w (the zero-initialized
tail of the Go resource array). -/
def padTo (w : Nat) (l : List Nat) : List Nat :=
  l ++ List.replicate (w - l.length) 0

/-- encodeARecord builds the 4-byte A record body: the fixed first byte
followed by up to 3 chunk bytes, zero-padded (dnsfserv.go `handle`,
TypeA case). -/
def encodeARecord (chunk : List Nat) : List Nat :=
  ansAFirstByte :: padTo 3 chunk

/-- encodeAAAARecord builds the 16-byte AAAA record body: the fixed 8-byte
first half followed by up to 8 chunk bytes, zero-padded (dnsfserv.go
`handle`, TypeAAAA case). -/
def encodeAAAARecord (chunk : List Nat) : List Nat :=
  ansAAAAFirstHalf ++ padTo 8 chunk

/-- encodeTXTRecord builds the TXT record text: unpadded base64 of the
chunk (dnsfserv.go `handle`, TypeTXT case). -/
def encodeTXTRecord (chunk : List Nat) : List Char :=
  b64Encode chunk

/-!
Client-side decoding (dnsfservget.go).  On the wire an A/AAAA answer
reaches the client as the textual address (`net.IP.String()` on the
server-built bytes) and decodeA re-parses it with `net.ParseIP`.  That
stdlib text round trip is abstracted: an answer is represented either by
its parsed address bytes (`Answer.ip`, for strings that parse as an IP
address) or by its raw text (`Answer.txt`, for strings that do not). -/

/-- Answer is one answer string returned by a Querier, with the IP-address
text layer abstracted to the address bytes. -/
inductive Answer
  | ip (bytes : List Nat)
  | txt (s : List Char)
  deriving DecidableEq

/-- v4MappedHead is Go net's v4InV6Prefix, the 12-byte head of an
IPv4-mapped IPv6 address. -/
def v4MappedHead : List Nat := [0, 0, 0, 0, 0, 0, 0, 0, 0, 0, 0xff, 0xff]

/-- toIP4 translates `net.IP.To4`: a 4-byte address itself, the tail of an
IPv4-mapped 16-byte address, nil otherwise. -/
def toIP4 (ip : List Nat) : Option (List Nat) :=
  if ip.length = 4 then some ip
  else if ip.length = 16 ∧ ip.take 12 = v4MappedHead then some (ip.drop 12)
  else none

/-- toIP16 translates `net.IP.To16`: a 16-byte address itself, a 4-byte
address mapped into IPv6, nil otherwise. -/
def toIP16 (ip : List Nat) : Option (List Nat) :=
  if ip.length = 16 then some ip
  else if ip.length = 4 then some (v4MappedHead ++ ip)
  else none

/-- decodeA translates `Getter.decodeA` (dnsfservget.go): convert the
parsed address with To4/To16, fail if the conversion yields nil, fail if
the full address width exceeds the buffer, else copy the payload tail of
the address into the buffer.  The buffer is represented by its length and
the returned value is the copied byte list (`buf[:n]` in Go). -/
def decodeA (qt : QType) (bufLen : Nat) (ipBytes : List Nat) : Except GetErr (List Nat) :=
  let conv : Option (List Nat) × Nat × Nat :=
    if qt = TypeA then (toIP4 ipBytes, 4, 1)
    else if qt = TypeAAAA then (toIP16 ipBytes, 16, 8)
    else (some ipBytes, 0, 0)
  match conv with
  | (none, _, _) => .error .unparseableIPAddr
  | (some ip, plen, start) =>
    if plen > bufLen then .error (.bufferTooSmall qt)
    else .ok ((ip.drop start).take bufLen)

/-- decodeTXT translates `Getter.decodeTXT` (dnsfservget.go): fail when
the base64 decoded length exceeds the buffer, else base64-decode. -/
def decodeTXT (bufLen : Nat) (txt : List Char) : Except GetErr (List Nat) :=
  if decodedLen txt.length > bufLen then .error .bufferTooSmallTXT
  else
    match b64Decode txt with
    | none => .error .badBase64
    | some bs => .ok bs

/-- DecodeResponse translates `Getter.DecodeResponse` (dnsfservget.go):
dispatch on the configured query type.  A mismatched answer shape (text
that is not an address where an address is expected, or vice versa) is
the case where the Go stdlib parse of the answer string fails. -/
def DecodeResponse (qt : QType) (bufLen : Nat) (res : Answer) : Except GetErr (List Nat) :=
  if qt = TypeA ∨ qt = TypeAAAA then
    match res with
    | .ip bs => decodeA qt bufLen bs
    | .txt _ => .error .invalidIPAddr
  else if qt = TypeTXT then
    match res with
    | .txt s => decodeTXT bufLen s
    | .ip _ => .error .badBase64
  else .error (.unsupportedQType qt)

/-!
Server handler (dnsfserv.go `handle`).  The network, the DNS wire
unpack/pack and the file system are abstracted: a query is its (already
unpacked) first question's name and wire type, the directory is a lookup
function from a cleaned element path to the file bytes, and the result is
the response message sent back (`none` when the handler drops the query
without responding).  A well-formed query message carries no answer
records, so the response's answer section is exactly what the handler
adds.
-/

/-- Wire value of dnsmessage.TypeA. -/
def dnsTypeA : Nat := 1

/-- Wire value of dnsmessage.TypeAAAA. -/
def dnsTypeAAAA : Nat := 28

/-- Wire value of dnsmessage.TypeTXT. -/
def dnsTypeTXT : Nat := 16

/-- Wire value of dnsmessage.ClassINET. -/
def dnsClassINET : Nat := 1

/-- Wire value of dnsmessage.RCodeSuccess. -/
def rcodeSuccess : Nat := 0

/-- Wire value of dnsmessage.RCodeNameError (NXDomain). -/
def rcodeNameError : Nat := 3

/-- RBody is one answer resource body built by the server. -/
inductive RBody
  | a (bytes : List Nat)
  | aaaa (bytes : List Nat)
  | txt (s : List Char)
  deriving DecidableEq

/-- DNSResponse is the message the server sends back: its result code and
the answer records it carries. -/
structure DNSResponse where
  rcode : Nat
  answers : List RBody
  deriving DecidableEq

/-- handle translates the body of dnsfserv.go `handle`: parse the first
question's name into (offset, filename); drop on parse failure; clean
and join the filename to the serving directory; drop when the file does
not open; answer NXDomain (the end-of-file signal, `sendEOF`) when the
offset is at or past the file length; otherwise read up to the record
type's capacity from the offset, encode it per the requested type, and
answer with result code success; drop unsupported record types. -/
def handle (fdirE : List (List Char)) (fs : List (List Char) → Option (List Nat))
    (qname : List Char) (qtype : Nat) : Option DNSResponse :=
  match parseQueryName qname with
  | none => none
  | some (foff, fname) =>
    match fs (joinedPath fdirE fname) with
    | none => none
    | some file =>
      if file.length ≤ foff then some ⟨rcodeNameError, []⟩
      else
        let chunk := fun cap => (file.drop foff).take cap
        if qtype = dnsTypeA then
          some ⟨rcodeSuccess, [.a (encodeARecord (chunk 3))]⟩
        else if qtype = dnsTypeAAAA then
          some ⟨rcodeSuccess, [.aaaa (encodeAAAARecord (chunk 8))]⟩
        else if qtype = dnsTypeTXT then
          some ⟨rcodeSuccess, [.txt (encodeTXTRecord (chunk ansTXTMax))]⟩
        else none

/-!
DoH message building and parsing (dnsfservget/doh.go).  The dnsmessage
wire pack/unpack (AppendPack / Unpack, library code) is abstracted: the
query builder returns the message it packs and the answer parser takes
the message the library unpacked.
-/

/-- MQuestion is a dnsmessage.Question. -/
structure MQuestion where
  name : List Char
  qtype : Nat
  qclass : Nat
  deriving DecidableEq

/-- MBody is a dnsmessage resource body. -/
inductive MBody
  | aRes (bytes : List Nat)
  | aaaaRes (bytes : List Nat)
  | txtRes (txts : List (List Char))
  | otherRes
  deriving DecidableEq

/-- MResource is a dnsmessage.Resource: its header type and its body. -/
structure MResource where
  rtype : Nat
  body : MBody
  deriving DecidableEq

/-- MMessage is a dnsmessage.Message restricted to the fields this
repository reads or writes. -/
structure MMessage where
  rcode : Nat
  recursionDesired : Bool
  questions : List MQuestion
  answers : List MResource
  deriving DecidableEq

/-- AppendQuery translates doh.go `AppendQuery` (the final AppendPack to
wire bytes is library code and is abstracted to the message it packs).
Note the source maps the TypeAAAA case to `dnsmessage.TypeA`. -/
def AppendQuery (qname : List Char) (qtype : QType) : Except GetErr MMessage :=
  let qt? : Except GetErr Nat :=
    if qtype = TypeA then .ok dnsTypeA
    else if qtype = TypeAAAA then .ok dnsTypeA
    else if qtype = TypeTXT then .ok dnsTypeTXT
    else .error (.unsupportedQType qtype)
  match qt? with
  | .error e => .error e
  | .ok qt =>
    let qn := if qname.getLast? = some '.' then qname else qname ++ ['.']
    if 255 < qn.length then .error .nameError
    else
      .ok { rcode := rcodeSuccess, recursionDesired := true,
            questions := [{ name := qn, qtype := qt, qclass := dnsClassINET }],
            answers := [] }

/-- DNSLookupError models the error values a Querier returns:
`dnsNotFound` is a *net.DNSError with IsNotFound set (a typed value,
distinguishable by case analysis, not string matching); `rcodeError`
carries a numeric result code and its symbolic form. -/
inductive DNSLookupError
  | dnsNotFound (name : List Char)
  | rcodeError (num : Nat) (sym : String)
  deriving DecidableEq

/-- rcodeString is dnsmessage.RCode.String: the symbolic name for the
known codes, the decimal text otherwise. -/
def rcodeString (r : Nat) : String :=
  if r = 0 then "RCodeSuccess"
  else if r = 1 then "RCodeFormatError"
  else if r = 2 then "RCodeServerFailure"
  else if r = 3 then "RCodeNameError"
  else if r = 4 then "RCodeNotImplemented"
  else if r = 5 then "RCodeRefused"
  else toString r

/-- mtOf is the filter-type mapping at the top of ParseDoHAnswer; an
unrecognized filter leaves the zero value of dnsmessage.Type. -/
def mtOf (filt : QType) : Nat :=
  if filt = TypeA then dnsTypeA
  else if filt = TypeAAAA then dnsTypeAAAA
  else if filt = TypeTXT then dnsTypeTXT
  else 0

/-- extractAnswers is ParseDoHAnswer's extraction loop: skip answers whose
header type differs from the requested one; A/AAAA bodies contribute
their address (`net.IP(...).String()`, abstracted to `Answer.ip`); a TXT
body appends each of its character-strings as its own entry
(`ss = append(ss, ar.TXT...)`). -/
def extractAnswers (mt : Nat) : List MResource → List Answer
  | [] => []
  | r :: rest =>
    if r.rtype ≠ mt then extractAnswers mt rest
    else
      match r.body with
      | .aRes bs => .ip bs :: extractAnswers mt rest
      | .aaaaRes bs => .ip bs :: extractAnswers mt rest
      | .txtRes ts => ts.map .txt ++ extractAnswers mt rest
      | .otherRes => extractAnswers mt rest

/-- ParseDoHAnswer translates doh.go `ParseDoHAnswer` (the library Unpack
of the wire bytes is abstracted to the unpacked message): success
extracts the matching answers; NXDomain returns the not-found error
carrying the first question's name when there is one; any other result
code returns a generic error with the numeric and symbolic code. -/
def ParseDoHAnswer (m : MMessage) (filt : QType) : Except DNSLookupError (List Answer) :=
  if m.rcode = rcodeSuccess then .ok (extractAnswers (mtOf filt) m.answers)
  else if m.rcode = rcodeNameError then
    .error (.dnsNotFound (match m.questions with | [] => [] | q0 :: _ => q0.name))
  else .error (.rcodeError m.rcode (rcodeString m.rcode))

/-!
The POST wrapper (doh.go `WrapPOST`).  The HTTP layer is abstracted to
the response the wrapped POST function produced; the wrapper's own logic
is the status check and the bounded body read (`io.ReadFull` into a
65535-byte buffer: a full buffer reads cleanly, a shorter non-empty body
ends with ErrUnexpectedEOF which is accepted, an empty body yields EOF
which is not).
-/

/-- MaxPOSTBody is the maximum number of bytes used from a POST response
body (doh.go). -/
def MaxPOSTBody : Nat := 65535

/-- HTTPResponse is the part of *http.Response that WrapPOST reads. -/
structure HTTPResponse where
  statusCode : Nat
  status : String
  body : List Nat
  deriving DecidableEq

/-- POSTError models the errors WrapPOST constructs. -/
inductive POSTError
  /-- `non-2xx response status %d %s` -/
  | non2xx (code : Nat) (status : String)
  /-- `reading response body: %w` (io.ReadFull returned EOF) -/
  | readFailed
  deriving DecidableEq

/-- wrapPOST translates the function returned by doh.go `WrapPOST`,
applied to the HTTP response the wrapped POST produced: error unless the
status code is exactly 200 (the source test is
`200 < res.StatusCode || 200 > res.StatusCode`), then read the body up
to MaxPOSTBody bytes, silently truncating a longer body; an empty body
is a read error (ReadFull returns plain EOF there). -/
def wrapPOST (res : HTTPResponse) : Except POSTError (List Nat) :=
  if 200 < res.statusCode ∨ 200 > res.statusCode then
    .error (.non2xx res.statusCode res.status)
  else if res.body.length = 0 then .error .readFailed
  else .ok (res.body.take MaxPOSTBody)

/-!
The Getter transfer loop (dnsfservget.go `Getter.get`).  The pipe is
abstracted to the list of bytes written and a close status; the querier
is the record of the three lookup functions.  The loop is given fuel to
keep the recursion structural; a run that exhausts its fuel reports
`fuelOut` (the Go loop simply keeps iterating).
-/

/-- Querier is the dnsfservget Querier interface. -/
structure Querier where
  a : List Char → Except DNSLookupError (List Answer)
  aaaa : List Char → Except DNSLookupError (List Answer)
  txt : List Char → Except DNSLookupError (List Answer)

/-- CloseStatus is how the output stream ends: a clean Close, a
CloseWithError with the given description, or fuel exhaustion (only an
artifact of the bounded model). -/
inductive CloseStatus
  | clean
  | failed (msg : String)
  | fuelOut
  deriving DecidableEq

/-- LoopRes is the observable outcome of the transfer loop: how many
queries were issued, the bytes written to the stream, and how the stream
was closed. -/
structure LoopRes where
  queries : Nat
  output : List Nat
  status : CloseStatus
  deriving DecidableEq

/-- getLoop translates the loop body of `Getter.get`: stop cleanly when a
configured byte budget reaches zero; build the next name (NextName, which
also advances the offset by the type's payload size and fails for an
unsupported type); dispatch the query by the configured type; a
not-found error closes cleanly (end of file), any other error closes
with it; an empty answer list is an error; decode the first answer into
the MaxDecode-byte buffer; truncate the decoded chunk to the remaining
budget when one is configured, write it, and decrement the budget.
Arguments after the fuel: the current offset, the remaining budget
`g.Max`, and `umax` (true when the transfer is unbounded, fixed before
the loop as `0 == g.Max`). -/
def getLoop (qr : Querier) (qtype : QType) (gname gdomain : List Char) :
    Nat → Nat → Nat → Bool → LoopRes
  | 0, _, _, _ => ⟨0, [], .fuelOut⟩
  | fuel + 1, off, mx, umax =>
    if mx = 0 ∧ umax = false then ⟨0, [], .clean⟩
    else
      match PayloadSize qtype with
      | .error _ => ⟨0, [], .failed "generating query name"⟩
      | .ok cap =>
        let q := nextNameStr off gname gdomain
        let qres :=
          if qtype = TypeA then qr.a q
          else if qtype = TypeAAAA then qr.aaaa q
          else qr.txt q
        match qres with
        | .error (.dnsNotFound _) => ⟨1, [], .clean⟩
        | .error _ => ⟨1, [], .failed "querying"⟩
        | .ok [] => ⟨1, [], .failed "empty response"⟩
        | .ok (a0 :: _) =>
          match DecodeResponse qtype MaxDecode a0 with
          | .error _ => ⟨1, [], .failed "decoding response"⟩
          | .ok bs =>
            let n := bs.length
            let n' := if mx < n ∧ umax = false then mx else n
            let r := getLoop qr qtype gname gdomain fuel (off + cap)
              (if umax then mx else mx - n') umax
            ⟨r.queries + 1, bs.take n' ++ r.output, r.status⟩

/-!
Lemmas: base-36 formatting round trip.
-/

/-- formatAux computes Nat.digits 36 once the fuel covers the input. -/
lemma formatAux_eq_digits : ∀ fuel n, n ≤ fuel → formatAux fuel n = Nat.digits 36 n := by
  intro fuel
  induction fuel with
  | zero => intro n h; interval_cases n; simp [formatAux]
  | succ f ih =>
    intro n h
    match n with
    | 0 => simp [formatAux]
    | m + 1 =>
      rw [formatAux, Nat.digits_def' (by norm_num : (1 : ℕ) < 36) (Nat.succ_pos m)]
      congr 1
      exact ih _ (by
        have : (m + 1) / 36 < m + 1 := Nat.div_lt_self (Nat.succ_pos m) (by norm_num)
        omega)

/-- The base-36 digit characters parse back to their values. -/
lemma digitVal36_digitChar36 : ∀ d, d < 36 → digitVal36 (digitChar36 d) = some d := by
  decide

/-- The base-36 digit characters are not '.'. -/
lemma digitChar36_ne_dot : ∀ d, d < 36 → digitChar36 d ≠ '.' := by
  decide

/-- The base-36 digit characters are not '-'. -/
lemma digitChar36_ne_dash : ∀ d, d < 36 → digitChar36 d ≠ '-' := by
  decide

/-- The base-36 digit characters are already lowercase. -/
lemma toLowerChar_digitChar36 : ∀ d, d < 36 → toLowerChar (digitChar36 d) = digitChar36 d := by
  decide

/-- Folding the parse step over valid digit characters accumulates the
base-36 value. -/
lemma foldl_parse_valid (ds : List Nat) (a : Nat) (h : ∀ d ∈ ds, d < 36) :
    List.foldl (fun acc c => acc.bind fun x => (digitVal36 c).map fun d => x * 36 + d)
      (some a) (ds.map digitChar36) =
      some (List.foldl (fun x d => x * 36 + d) a ds) := by
  induction ds generalizing a with
  | nil => simp
  | cons d ds ih =>
    have hd : d < 36 := h d (List.mem_cons_self d ds)
    simp only [List.map_cons, List.foldl_cons, Option.bind_some,
      digitVal36_digitChar36 d hd, Option.map_some]
    exact ih (a * 36 + d) (fun x hx => h x (List.mem_cons_of_mem d hx))

/-- Folding multiply-and-add over the reversed digit list recovers the
positional value. -/
lemma foldl_digits_reverse (ds : List Nat) (a : Nat) :
    List.foldl (fun x d => x * 36 + d) a ds.reverse =
      a * 36 ^ ds.length + Nat.ofDigits 36 ds := by
  induction ds generalizing a with
  | nil => simp
  | cons d ds ih =>
    simp only [List.reverse_cons, List.foldl_append, List.foldl_cons, List.foldl_nil, ih,
      List.length_cons, Nat.ofDigits_cons]
    ring

/-- Every character of formatUint36 is a base-36 digit character. -/
lemma formatUint36_chars (n : Nat) :
    ∀ c ∈ formatUint36 n, ∃ d, d < 36 ∧ c = digitChar36 d := by
  intro c hc
  unfold formatUint36 at hc
  by_cases h0 : n = 0
  · simp [h0] at hc
    exact ⟨0, by norm_num, by rw [hc]; decide⟩
  · simp only [if_neg h0, formatAux_eq_digits n n le_rfl, List.mem_map,
      List.mem_reverse] at hc
    obtain ⟨d, hd, rfl⟩ := hc
    exact ⟨d, Nat.digits_lt_base (by norm_num) hd, rfl⟩

/-- formatUint36 never returns the empty string. -/
lemma formatUint36_ne_nil (n : Nat) : formatUint36 n ≠ [] := by
  unfold formatUint36
  by_cases h0 : n = 0
  · simp [h0]
  · simp only [if_neg h0, formatAux_eq_digits n n le_rfl]
    simp [Nat.digits_ne_nil_iff_ne_zero.mpr h0]

/-- Parsing the formatted offset recovers it (round trip of
strconv.FormatUint / strconv.ParseUint at base 36 within the uint64
range). -/
lemma parseUint36_formatUint36 (n : Nat) (h : n < 2 ^ 64) :
    parseUint36 (formatUint36 n) = some n := by
  by_cases h0 : n = 0
  · subst h0; decide
  · have hfmt : formatUint36 n = ((Nat.digits 36 n).reverse).map digitChar36 := by
      unfold formatUint36
      rw [if_neg h0, formatAux_eq_digits n n le_rfl]
    rw [parseUint36, hfmt]
    have hne : ((Nat.digits 36 n).reverse).map digitChar36 ≠ [] := by
      simp [Nat.digits_ne_nil_iff_ne_zero.mpr h0]
    rw [if_neg hne]
    have hvalid : ∀ d ∈ (Nat.digits 36 n).reverse, d < 36 := by
      intro d hd
      exact Nat.digits_lt_base (by norm_num) (List.mem_reverse.mp hd)
    rw [foldl_parse_valid _ 0 hvalid]
    have : List.foldl (fun x d => x * 36 + d) 0 (Nat.digits 36 n).reverse = n := by
      rw [foldl_digits_reverse, Nat.ofDigits_digits]
      ring
    rw [this]
    have h64 : n < 18446744073709551616 := by
      calc n < 2 ^ 64 := h
        _ = 18446744073709551616 := by norm_num
    simp [h64]

/-!
Lemmas: splitFirst and the query-name parse.
-/

/-- Mapping a function that fixes every element of a list is the
identity. -/
lemma map_eq_self_of_forall {α : Type} (f : α → α) :
    ∀ l : List α, (∀ x ∈ l, f x = x) → l.map f = l := by
  intro l h
  induction l with
  | nil => rfl
  | cons a t ih =>
    simp only [List.map_cons]
    rw [h a (List.mem_cons_self a t), ih fun x hx => h x (List.mem_cons_of_mem a hx)]

/-- splitFirst at the first occurrence of the separator. -/
lemma splitFirst_concat (c : Char) (l r : List Char) (h : c ∉ l) :
    splitFirst c (l ++ c :: r) = (l, some r) := by
  induction l with
  | nil => simp [splitFirst]
  | cons x xs ih =>
    have hx : x ≠ c := fun e => h (e ▸ List.mem_cons_self x xs)
    have ih' := ih fun hm => h (List.mem_cons_of_mem x hm)
    simp only [List.cons_append, splitFirst, if_neg hx, List.append_eq, ih']

/-- Characters of splitFirst's first component come from the input. -/
lemma mem_splitFirst_fst (c x : Char) :
    ∀ l : List Char, x ∈ (splitFirst c l).1 → x ∈ l := by
  intro l
  induction l with
  | nil => simp [splitFirst]
  | cons y ys ih =>
    by_cases hy : y = c
    · simp [splitFirst, hy]
    · simp only [splitFirst, if_neg hy]
      intro hm
      rcases List.mem_cons.mp hm with h | h
      · exact h ▸ List.mem_cons_self y ys
      · exact List.mem_cons_of_mem y (ih h)

/-- Characters of splitFirst's second component come from the input. -/
lemma mem_splitFirst_snd (c x : Char) :
    ∀ l r : List Char, (splitFirst c l).2 = some r → x ∈ r → x ∈ l := by
  intro l
  induction l with
  | nil => intro r h; simp [splitFirst] at h
  | cons y ys ih =>
    intro r h hx
    by_cases hy : y = c
    · simp only [splitFirst, if_pos hy] at h
      injection h with h
      exact List.mem_cons_of_mem y (h ▸ hx)
    · simp only [splitFirst, if_neg hy] at h
      exact List.mem_cons_of_mem y (ih r h hx)

/-- The separator never appears in splitFirst's first component. -/
lemma sep_not_mem_splitFirst_fst (c : Char) :
    ∀ l : List Char, c ∉ (splitFirst c l).1 := by
  intro l
  induction l with
  | nil => simp [splitFirst]
  | cons y ys ih =>
    by_cases hy : y = c
    · simp [splitFirst, hy]
    · simp only [splitFirst, if_neg hy]
      intro hm
      rcases List.mem_cons.mp hm with h | h
      · exact hy h.symm
      · exact ih h

/-- Lowercasing fixes the base-36 rendering of an offset. -/
lemma map_toLower_formatUint36 (n : Nat) :
    (formatUint36 n).map toLowerChar = formatUint36 n := by
  refine map_eq_self_of_forall _ _ fun c hc => ?_
  obtain ⟨d, hd, rfl⟩ := formatUint36_chars n c hc
  exact toLowerChar_digitChar36 d hd

/-- The dot never appears in the base-36 rendering of an offset. -/
lemma dot_not_mem_formatUint36 (n : Nat) : '.' ∉ formatUint36 n := by
  intro hm
  obtain ⟨d, hd, he⟩ := formatUint36_chars n '.' hm
  exact digitChar36_ne_dot d hd he.symm

/-- The dash never appears in the base-36 rendering of an offset. -/
lemma dash_not_mem_formatUint36 (n : Nat) : '-' ∉ formatUint36 n := by
  intro hm
  obtain ⟨d, hd, he⟩ := formatUint36_chars n '-' hm
  exact digitChar36_ne_dash d hd he.symm

/-- C5: encoding a valid (offset, filename, domain) triple into a query
name exactly as Getter.NextName does and decoding it with the server's
inverse parse recovers the offset and the filename.  Valid means: the
offset is in the 64-bit range, and the filename contains no dot and is
already lowercase (DNS matching is case-insensitive and the server
lowercases the name; a dot would end the filename label). -/
theorem c5_name_roundtrip (off : Nat) (fname domain : List Char)
    (hoff : off < 2 ^ 64) (hdot : '.' ∉ fname)
    (hlower : fname.map toLowerChar = fname) :
    parseQueryName (nextNameStr off fname domain) = some (off, fname) := by
  have hdash : toLowerChar '-' = '-' := by decide
  have hdot' : toLowerChar '.' = '.' := by decide
  have hql : (nextNameStr off fname domain).map toLowerChar
      = (formatUint36 off ++ '-' :: fname) ++ '.' :: domain.map toLowerChar := by
    simp only [nextNameStr, List.map_append, List.map_cons, hdash, hdot',
      map_toLower_formatUint36, hlower, List.cons_append, List.append_assoc]
  have hdotA : '.' ∉ formatUint36 off ++ '-' :: fname := by
    intro hm
    rcases List.mem_append.mp hm with h | h
    · exact dot_not_mem_formatUint36 off h
    · rcases List.mem_cons.mp h with h | h
      · exact absurd h (by decide)
      · exact hdot h
  have h1 : splitFirst '.' ((nextNameStr off fname domain).map toLowerChar)
      = (formatUint36 off ++ '-' :: fname, some (domain.map toLowerChar)) := by
    rw [hql]
    exact splitFirst_concat '.' _ _ hdotA
  have h2 : splitFirst '-' (formatUint36 off ++ '-' :: fname)
      = (formatUint36 off, some fname) :=
    splitFirst_concat '-' _ _ (dash_not_mem_formatUint36 off)
  simp only [parseQueryName, h1, h2, if_neg (formatUint36_ne_nil off),
    parseUint36_formatUint36 off hoff]

/-!
Lemmas: path elements and cleaning, for the traversal claim.
-/

/-- splitSlash never returns the empty list. -/
lemma splitSlash_ne_nil : ∀ l : List Char, splitSlash l ≠ [] := by
  intro l
  cases l with
  | nil => simp [splitSlash]
  | cons c rest =>
    simp only [splitSlash]
    by_cases hc : c = '/' <;> simp [hc]

/-- Characters of the elements of splitSlash come from the input. -/
lemma mem_splitSlash : ∀ (l : List Char) (e : List Char), e ∈ splitSlash l →
    ∀ x ∈ e, x ∈ l := by
  intro l
  induction l with
  | nil =>
    intro e he x hx
    simp only [splitSlash, List.mem_singleton] at he
    subst he
    simp at hx
  | cons c rest ih =>
    intro e he x hx
    rcases hr : splitSlash rest with _ | ⟨r0, rs⟩
    · exact absurd hr (splitSlash_ne_nil rest)
    · simp only [splitSlash, hr] at he
      by_cases hc : c = '/'
      · simp only [if_pos hc] at he
        rcases List.mem_cons.mp he with h | h
        · subst h; simp at hx
        · exact List.mem_cons_of_mem c (ih e (hr ▸ h) x hx)
      · simp only [if_neg hc, List.headI, List.tail] at he
        rcases List.mem_cons.mp he with h | h
        · subst h
          rcases List.mem_cons.mp hx with h | h
          · exact h ▸ List.mem_cons_self c rest
          · exact List.mem_cons_of_mem c
              (ih r0 (hr ▸ List.mem_cons_self r0 rs) x h)
        · exact List.mem_cons_of_mem c
            (ih e (hr ▸ List.mem_cons_of_mem r0 h) x hx)

/-- Folding cleanStep over elements free of "." and ".." appends their
non-empty ones. -/
lemma foldl_cleanStep_no_dots (B : List (List Char))
    (hB : ∀ e ∈ B, e ≠ ['.'] ∧ e ≠ ['.', '.']) :
    ∀ acc, List.foldl cleanStep acc B = acc ++ B.filter (fun e => decide (e ≠ [])) := by
  induction B with
  | nil => intro acc; simp
  | cons e B ih =>
    intro acc
    have he := hB e (List.mem_cons_self e B)
    have hB' := fun x hx => hB x (List.mem_cons_of_mem e hx)
    by_cases hemp : e = []
    · rw [List.foldl_cons]
      have hstep : cleanStep acc e = acc := by
        simp [cleanStep, hemp]
      rw [hstep, ih hB']
      simp [hemp, List.filter_cons]
    · rw [List.foldl_cons]
      have hstep : cleanStep acc e = acc ++ [e] := by
        simp [cleanStep, hemp, he.1, he.2]
      rw [hstep, ih hB']
      simp [hemp, List.filter_cons, List.append_assoc]

/-- Cleaning serving-directory elements followed by dot-free filename
elements appends the filename's non-empty elements to the directory. -/
lemma cleanElems_append_clean (A B : List (List Char))
    (hA : ∀ e ∈ A, e ≠ [] ∧ e ≠ ['.'] ∧ e ≠ ['.', '.'])
    (hB : ∀ e ∈ B, e ≠ ['.'] ∧ e ≠ ['.', '.']) :
    cleanElems (A ++ B) = A ++ B.filter (fun e => decide (e ≠ [])) := by
  unfold cleanElems
  rw [List.foldl_append]
  rw [foldl_cleanStep_no_dots A (fun e he => ⟨(hA e he).2.1, (hA e he).2.2⟩) []]
  rw [List.nil_append]
  have : A.filter (fun e => decide (e ≠ [])) = A := by
    rw [List.filter_eq_self]
    intro a ha
    simp [(hA a ha).1]
  rw [this, foldl_cleanStep_no_dots B hB A]

/-- A filename decoded by the server never contains a dot: it is a piece
of the first dot-separated label of the query string. -/
lemma parseQueryName_fname_no_dot (q : List Char) (off : Nat) (fname : List Char)
    (h : parseQueryName q = some (off, fname)) : '.' ∉ fname := by
  simp only [parseQueryName] at h
  split at h
  · exact absurd h (by simp)
  · next fn hsnd =>
    split at h
    · exact absurd h (by simp)
    · split at h
      · exact absurd h (by simp)
      · next o hpu =>
        simp only [Option.some.injEq, Prod.mk.injEq] at h
        intro hm
        have h1 : '.' ∈ (splitFirst '.' (q.map toLowerChar)).1 :=
          mem_splitFirst_snd '-' '.' _ fn hsnd (h.2 ▸ hm)
        exact sep_not_mem_splitFirst_fst '.' (q.map toLowerChar) h1

/-- C1: the server never opens a file outside the serving directory.  A
decoded filename is a piece of the first dot-separated label of the query
name, so it can contain no dot at all — in particular no traversal
segment — which makes the guarded drop of the claim vacuous and keeps the
joined path inside the directory: for any serving directory whose own
elements are ordinary (non-empty, not "." or ".."), the cleaned joined
path is exactly the directory's elements followed by the filename's
non-empty elements, and ".." appears nowhere in it. -/
theorem c1_no_traversal (fdirE : List (List Char))
    (hfd : ∀ e ∈ fdirE, e ≠ [] ∧ e ≠ ['.'] ∧ e ≠ ['.', '.'])
    (q : List Char) (off : Nat) (fname : List Char)
    (hparse : parseQueryName q = some (off, fname)) :
    '.' ∉ fname ∧
    (∀ e ∈ splitSlash fname, e ≠ ['.'] ∧ e ≠ ['.', '.']) ∧
    joinedPath fdirE fname = fdirE ++ (splitSlash fname).filter (fun e => decide (e ≠ [])) ∧
    ['.', '.'] ∉ joinedPath fdirE fname := by
  have hdot : '.' ∉ fname := parseQueryName_fname_no_dot q off fname hparse
  have helems : ∀ e ∈ splitSlash fname, e ≠ ['.'] ∧ e ≠ ['.', '.'] := by
    intro e he
    constructor
    · intro h1
      exact hdot (mem_splitSlash fname e he '.' (h1 ▸ List.mem_singleton.mpr rfl))
    · intro h2
      exact hdot (mem_splitSlash fname e he '.'
        (h2 ▸ List.mem_cons_self '.' ['.']))
  have hjoin : joinedPath fdirE fname
      = fdirE ++ (splitSlash fname).filter (fun e => decide (e ≠ [])) :=
    cleanElems_append_clean fdirE (splitSlash fname) hfd helems
  refine ⟨hdot, helems, hjoin, ?_⟩
  rw [hjoin]
  intro hm
  rcases List.mem_append.mp hm with h | h
  · exact (hfd _ h).2.2 rfl
  · exact (helems _ (List.mem_filter.mp h).1).2 rfl

/-- Witness for C1 at the default serving directory "fserv" and the query
name "2-x.example.com.". -/
theorem c1_no_traversal_witness :
    '.' ∉ ['x'] ∧
    (∀ e ∈ splitSlash ['x'], e ≠ ['.'] ∧ e ≠ ['.', '.']) ∧
    joinedPath ["fserv".toList] ['x']
      = ["fserv".toList] ++ (splitSlash ['x']).filter (fun e => decide (e ≠ [])) ∧
    ['.', '.'] ∉ joinedPath ["fserv".toList] ['x'] :=
  c1_no_traversal ["fserv".toList] (by decide) ("2-x.example.com.".toList) 2 ['x']
    (by decide)

/-- Witness for C5 at offset 20250, filename "tool-v2", domain
"example.com". -/
theorem c5_name_roundtrip_witness :
    parseQueryName (nextNameStr 20250 ("tool-v2".toList) ("example.com".toList))
      = some (20250, "tool-v2".toList) :=
  c5_name_roundtrip 20250 ("tool-v2".toList) ("example.com".toList)
    (by norm_num) (by decide) (by decide)

/-- C2: contrary to the claim, a TypeAAAA request does not yield a
question of wire type AAAA.  The source's type switch maps the TypeAAAA
case to `dnsmessage.TypeA`, so the produced query message carries wire
type A (1) in its sole question (class INET and RecursionDesired are as
claimed).  This theorem evaluates the embedded AppendQuery at the failing
input. -/
theorem c2_appendquery_aaaa_wire_type :
    AppendQuery ("x.example.com".toList) TypeAAAA
      = .ok ⟨rcodeSuccess, true,
          [⟨"x.example.com.".toList, dnsTypeA, dnsClassINET⟩], []⟩ ∧
    dnsTypeA ≠ dnsTypeAAAA := by
  constructor <;> decide

/-- C3 counterexample: a success message holding one TXT answer record
with the two character-strings "ab" and "cd" parses to the two separate
entries, not to the single concatenated entry the claim describes. -/
theorem c3_txt_concat_counterexample :
    ParseDoHAnswer
        ⟨rcodeSuccess, false, [], [⟨dnsTypeTXT, .txtRes [['a', 'b'], ['c', 'd']]⟩]⟩ TypeTXT
      = .ok [.txt ['a', 'b'], .txt ['c', 'd']] ∧
    ParseDoHAnswer
        ⟨rcodeSuccess, false, [], [⟨dnsTypeTXT, .txtRes [['a', 'b'], ['c', 'd']]⟩]⟩ TypeTXT
      ≠ .ok [.txt ['a', 'b', 'c', 'd']] := by
  constructor <;> decide

/-- C3 as amended: ParseDoHAnswer returns the character-strings of a TXT
answer record as separate list entries, in record order
(`ss = append(ss, ar.TXT...)` in the source). -/
theorem c3_txt_separate_entries (rd : Bool) (qs : List MQuestion)
    (ts : List (List Char)) :
    ParseDoHAnswer ⟨rcodeSuccess, rd, qs, [⟨dnsTypeTXT, .txtRes ts⟩]⟩ TypeTXT
      = .ok (ts.map Answer.txt) := by
  have hmt : mtOf TypeTXT = dnsTypeTXT := by decide
  simp [ParseDoHAnswer, hmt, extractAnswers, rcodeSuccess, dnsTypeTXT]

/-- C4 counterexample: the 2xx status 201 is not treated as success; the
POST wrapper returns the non-2xx error for it. -/
theorem c4_status_201_counterexample :
    wrapPOST ⟨201, "201 Created", [7]⟩ = .error (.non2xx 201 "201 Created") := by
  decide

/-- C4 as amended: the POST wrapper treats exactly status 200 as success
(any other status, 2xx or not, yields the non-2xx-labelled error); on
status 200 with a non-empty body, the body is returned truncated to
MaxPOSTBody (65,535) bytes, silently. -/
theorem c4_wrappost_only_200 (res : HTTPResponse) :
    (res.statusCode ≠ 200 → wrapPOST res = .error (.non2xx res.statusCode res.status)) ∧
    (res.statusCode = 200 → res.body ≠ [] →
      wrapPOST res = .ok (res.body.take MaxPOSTBody)) := by
  constructor
  · intro h
    have hcond : 200 < res.statusCode ∨ 200 > res.statusCode := by omega
    simp [wrapPOST, hcond]
  · intro h hb
    have hcond : ¬(200 < res.statusCode ∨ 200 > res.statusCode) := by omega
    simp [wrapPOST, hcond, List.length_eq_zero, hb]

/-- Witness for C4's amended statement: a 500 response errors, a 200
response with body bytes returns them. -/
theorem c4_wrappost_only_200_witness :
    wrapPOST ⟨500, "ISE", [1]⟩ = .error (.non2xx 500 "ISE") ∧
    wrapPOST ⟨200, "OK", [9, 9]⟩ = .ok ([9, 9].take MaxPOSTBody) :=
  ⟨(c4_wrappost_only_200 ⟨500, "ISE", [1]⟩).1 (by decide),
   (c4_wrappost_only_200 ⟨200, "OK", [9, 9]⟩).2 rfl (by decide)⟩


/-!
Lemmas: base64 round trip and the payload codec claim.
-/

/-- The base64 alphabet characters map back to their six-bit values. -/
lemma b64Val_b64Char : ∀ v, v < 64 → b64Val (b64Char v) = some v := by
  decide

/-- Decoding an encoded byte list recovers it (round trip of Go
RawStdEncoding for byte values). -/
lemma b64_roundtrip : ∀ bs : List Nat, (∀ x ∈ bs, x < 256) →
    b64Decode (b64Encode bs) = some bs
  | [], _ => rfl
  | [a], h => by
    have ha : a < 256 := h a (by simp)
    simp only [b64Encode, b64Decode, b64Val_b64Char (a / 4) (by omega),
      b64Val_b64Char (a % 4 * 16) (by omega), Option.bind_some, Option.some_bind]
    simp
    omega
  | [a, b], h => by
    have ha : a < 256 := h a (by simp)
    have hb : b < 256 := h b (by simp)
    simp only [b64Encode, b64Decode, b64Val_b64Char (a / 4) (by omega),
      b64Val_b64Char (a % 4 * 16 + b / 16) (by omega),
      b64Val_b64Char (b % 16 * 4) (by omega), Option.bind_some, Option.some_bind]
    simp
    constructor <;> omega
  | a :: b :: d :: rest, h => by
    have ha : a < 256 := h a (by simp)
    have hb : b < 256 := h b (by simp)
    have hd : d < 256 := h d (by simp)
    have ih := b64_roundtrip rest fun x hx => h x (by simp [hx])
    simp only [b64Encode, b64Decode, b64Val_b64Char (a / 4) (by omega),
      b64Val_b64Char (a % 4 * 16 + b / 16) (by omega),
      b64Val_b64Char (b % 16 * 4 + d / 64) (by omega),
      b64Val_b64Char (d % 64) (by omega), ih, Option.bind_some, Option.some_bind]
    simp
    refine ⟨?_, ?_, ?_⟩ <;> omega

/-- The decoded length of an encoded byte list is the byte count. -/
lemma decodedLen_b64Encode : ∀ bs : List Nat,
    decodedLen (b64Encode bs).length = bs.length
  | [] => rfl
  | [_] => by simp [b64Encode, decodedLen]
  | [_, _] => by simp [b64Encode, decodedLen]
  | a :: b :: d :: rest => by
    have ih := decodedLen_b64Encode rest
    simp only [b64Encode, List.length_cons] at ih ⊢
    unfold decodedLen at ih ⊢
    omega

/-- C6: the per-type payload codec round-trips.  Encoding a chunk of at
most the type's capacity as the server does and decoding the answer with
the client's DecodeResponse (into a large enough buffer, such as the
MaxDecode buffer the Getter uses) yields the chunk zero-padded to the
fixed width for A (3) and AAAA (8), and the chunk itself for TXT. -/
theorem c6_payload_roundtrip (chunk : List Nat) (bufLen : Nat) :
    (chunk.length ≤ 3 → 4 ≤ bufLen →
      DecodeResponse TypeA bufLen (.ip (encodeARecord chunk)) = .ok (padTo 3 chunk)) ∧
    (chunk.length ≤ 8 → 16 ≤ bufLen →
      DecodeResponse TypeAAAA bufLen (.ip (encodeAAAARecord chunk)) = .ok (padTo 8 chunk)) ∧
    (chunk.length ≤ 160 → chunk.length ≤ bufLen → (∀ x ∈ chunk, x < 256) →
      DecodeResponse TypeTXT bufLen (.txt (encodeTXTRecord chunk)) = .ok chunk) := by
  refine ⟨fun hc hb => ?_, fun hc hb => ?_, fun hc hb hx => ?_⟩
  · have hpad : (padTo 3 chunk).length = 3 := by simp [padTo]; omega
    have htoip : toIP4 (encodeARecord chunk) = some (encodeARecord chunk) := by
      have hip : (encodeARecord chunk).length = 4 := by
        simp [encodeARecord]; omega
      unfold toIP4
      rw [hip]
      simp
    have hb4 : ¬ (4 > bufLen) := by omega
    have hdrop : (encodeARecord chunk).drop 1 = padTo 3 chunk := rfl
    simp [DecodeResponse, decodeA, htoip, hb4, hdrop]
    omega
  · have hpad : (padTo 8 chunk).length = 8 := by simp [padTo]; omega
    have htoip : toIP16 (encodeAAAARecord chunk) = some (encodeAAAARecord chunk) := by
      have hip : (encodeAAAARecord chunk).length = 16 := by
        simp [encodeAAAARecord, ansAAAAFirstHalf]; omega
      unfold toIP16
      rw [hip]
      simp
    have hne : TypeAAAA ≠ TypeA := by decide
    have hb16 : ¬ (16 > bufLen) := by omega
    have hdrop : (encodeAAAARecord chunk).drop 8 = padTo 8 chunk := rfl
    simp [DecodeResponse, decodeA, htoip, hne, hb16, hdrop]
    omega
  · have hgt : ¬ (chunk.length > bufLen) := by omega
    show decodeTXT bufLen (encodeTXTRecord chunk) = .ok chunk
    simp [decodeTXT, encodeTXTRecord, decodedLen_b64Encode chunk, hgt,
      b64_roundtrip chunk hx]

/-- Witness for C6 at the chunk [1, 2] and the Getter's MaxDecode-sized
buffer. -/
theorem c6_payload_roundtrip_witness :
    DecodeResponse TypeA 160 (.ip (encodeARecord [1, 2])) = .ok (padTo 3 [1, 2]) ∧
    DecodeResponse TypeAAAA 160 (.ip (encodeAAAARecord [1, 2])) = .ok (padTo 8 [1, 2]) ∧
    DecodeResponse TypeTXT 160 (.txt (encodeTXTRecord [1, 2])) = .ok [1, 2] :=
  ⟨(c6_payload_roundtrip [1, 2] 160).1 (by decide) (by decide),
   (c6_payload_roundtrip [1, 2] 160).2.1 (by decide) (by decide),
   (c6_payload_roundtrip [1, 2] 160).2.2 (by decide) (by decide) (by decide)⟩

/-!
The remaining claims: the bounded Getter run, the DoH answer taxonomy,
the server's end-of-file answer, and the decode buffer checks.
-/

/-- c7Querier is a Querier whose A method always returns exactly one
full-capacity A answer: the fixed first byte followed by the three
payload bytes a, b, c (the other methods are unused by an A-typed
Getter). -/
def c7Querier (a b c : Nat) : Querier :=
  ⟨fun _ => .ok [.ip [ansAFirstByte, a, b, c]], fun _ => .ok [], fun _ => .ok []⟩

/-- C7: a Getter with Max = 5 and record type A, driven against a Querier
that always returns one full-capacity 3-byte answer, writes exactly the
5 bytes a, b, c, a, b (the second chunk truncated from 3 bytes to the
remaining budget of 2), closes cleanly, and issues exactly 2 queries.
Three loop iterations suffice: two that query and one that observes the
exhausted budget and closes. -/
theorem c7_getter_max5 (a b c : Nat) (gname gdomain : List Char) :
    getLoop (c7Querier a b c) TypeA gname gdomain 3 0 5 false
      = ⟨2, [a, b, c, a, b], .clean⟩ := by
  rfl

/-- extractAnswers skips every record when none has the requested type. -/
lemma extractAnswers_nil (mt : Nat) : ∀ l : List MResource,
    (∀ a ∈ l, a.rtype ≠ mt) → extractAnswers mt l = [] := by
  intro l
  induction l with
  | nil => intro _; rfl
  | cons r rest ih =>
    intro h
    have hr : r.rtype ≠ mt := h r (List.mem_cons_self r rest)
    simp only [extractAnswers, if_pos hr]
    exact ih fun x hx => h x (List.mem_cons_of_mem r hx)

/-- C8: ParseDoHAnswer's outcome taxonomy.  A name-error message yields
the typed not-found error (the IsNotFound-flagged *net.DNSError,
distinguishable by case analysis, not by string matching), carrying the
first question's name when the message has one; a success message none
of whose answers match the requested type yields an empty list and no
error; any other result code yields the generic error carrying the
numeric code and its symbolic form. -/
theorem c8_parsedoh_taxonomy (m : MMessage) (filt : QType) :
    (m.rcode = rcodeNameError → m.questions = [] →
      ParseDoHAnswer m filt = .error (.dnsNotFound [])) ∧
    (m.rcode = rcodeNameError → ∀ q0 qs, m.questions = q0 :: qs →
      ParseDoHAnswer m filt = .error (.dnsNotFound q0.name)) ∧
    (m.rcode = rcodeSuccess → (∀ a ∈ m.answers, a.rtype ≠ mtOf filt) →
      ParseDoHAnswer m filt = .ok []) ∧
    (m.rcode ≠ rcodeSuccess → m.rcode ≠ rcodeNameError →
      ParseDoHAnswer m filt = .error (.rcodeError m.rcode (rcodeString m.rcode))) := by
  refine ⟨fun h1 h2 => ?_, fun h1 q0 qs h2 => ?_, fun h1 h2 => ?_, fun h1 h2 => ?_⟩
  · simp [ParseDoHAnswer, h1, h2, rcodeNameError, rcodeSuccess]
  · simp [ParseDoHAnswer, h1, h2, rcodeNameError, rcodeSuccess]
  · simp [ParseDoHAnswer, h1, rcodeSuccess, extractAnswers_nil (mtOf filt) m.answers h2]
  · simp only [rcodeSuccess, rcodeNameError] at h1 h2
    simp [ParseDoHAnswer, h1, h2, rcodeNameError, rcodeSuccess]

/-- Witness for C8 at four concrete messages, one per taxonomy branch. -/
theorem c8_parsedoh_taxonomy_witness :
    ParseDoHAnswer ⟨3, false, [], []⟩ TypeA = .error (.dnsNotFound []) ∧
    ParseDoHAnswer ⟨3, false, [⟨"q.".toList, 1, 1⟩], []⟩ TypeA
      = .error (.dnsNotFound ("q.".toList)) ∧
    ParseDoHAnswer ⟨0, false, [], [⟨1, .aRes [3, 1, 2, 3]⟩]⟩ TypeTXT = .ok [] ∧
    ParseDoHAnswer ⟨2, false, [], []⟩ TypeA
      = .error (.rcodeError 2 (rcodeString 2)) :=
  ⟨(c8_parsedoh_taxonomy ⟨3, false, [], []⟩ TypeA).1 rfl rfl,
   (c8_parsedoh_taxonomy ⟨3, false, [⟨"q.".toList, 1, 1⟩], []⟩ TypeA).2.1 rfl
     ⟨"q.".toList, 1, 1⟩ [] rfl,
   (c8_parsedoh_taxonomy ⟨0, false, [], [⟨1, .aRes [3, 1, 2, 3]⟩]⟩ TypeTXT).2.2.1 rfl
     (by decide),
   (c8_parsedoh_taxonomy ⟨2, false, [], []⟩ TypeA).2.2.2 (by decide) (by decide)⟩

/-- C9: a well-formed query (one the server's parse accepts) naming a
file that opens, with a decoded offset at or past the file's length,
makes the handler answer with result code name-error and no answer
records (sendEOF), not with an answer record and not with silence. -/
theorem c9_eof_negative_answer (fdirE : List (List Char))
    (fs : List (List Char) → Option (List Nat)) (qname : List Char) (qtype : Nat)
    (off : Nat) (fname : List Char) (file : List Nat)
    (hparse : parseQueryName qname = some (off, fname))
    (hfile : fs (joinedPath fdirE fname) = some file)
    (heof : file.length ≤ off) :
    handle fdirE fs qname qtype = some ⟨rcodeNameError, []⟩ := by
  simp [handle, hparse, hfile, heof]

/-- Witness for C9: a 1-byte file "x" in directory "f" queried at offset
1 with an A question draws the negative answer. -/
theorem c9_eof_negative_answer_witness :
    handle [['f']] (fun p => if p = [['f'], ['x']] then some [9] else none)
      ("1-x.d.".toList) dnsTypeA = some ⟨rcodeNameError, []⟩ :=
  c9_eof_negative_answer [['f']]
    (fun p => if p = [['f'], ['x']] then some [9] else none)
    ("1-x.d.".toList) dnsTypeA 1 ['x'] [9] (by decide) (by decide) (by decide)

/-- C10: decodeA (via DecodeResponse) rejects any buffer shorter than the
full address width — 4 bytes for A, 16 for AAAA — with the
buffer-too-small error whenever the answer address itself converts, even
though the payload is only 3 or 8 bytes; in particular a buffer sized
exactly at the type's PayloadSize (3 or 8) is always rejected. -/
theorem c10_buffer_check (bufLen : Nat) (ip : List Nat) :
    ((toIP4 ip).isSome → bufLen < 4 →
      DecodeResponse TypeA bufLen (.ip ip) = .error (.bufferTooSmall TypeA)) ∧
    ((toIP16 ip).isSome → bufLen < 16 →
      DecodeResponse TypeAAAA bufLen (.ip ip) = .error (.bufferTooSmall TypeAAAA)) ∧
    (PayloadSize TypeA = .ok 3 ∧ PayloadSize TypeAAAA = .ok 8) := by
  refine ⟨fun hs hlt => ?_, fun hs hlt => ?_, by decide⟩
  · obtain ⟨ip4, hip4⟩ := Option.isSome_iff_exists.mp hs
    have h4 : 4 > bufLen := hlt
    simp [DecodeResponse, decodeA, hip4, h4]
  · obtain ⟨ip16, hip16⟩ := Option.isSome_iff_exists.mp hs
    have hne : TypeAAAA ≠ TypeA := by decide
    have h16 : 16 > bufLen := hlt
    simp [DecodeResponse, decodeA, hne, hip16, h16]

/-- Witness for C10: buffers sized exactly at PayloadSize (3 for A, 8 for
AAAA) are rejected for valid addresses. -/
theorem c10_buffer_check_witness :
    DecodeResponse TypeA 3 (.ip [3, 1, 2, 3]) = .error (.bufferTooSmall TypeA) ∧
    DecodeResponse TypeAAAA 8 (.ip (List.replicate 16 0))
      = .error (.bufferTooSmall TypeAAAA) :=
  ⟨(c10_buffer_check 3 [3, 1, 2, 3]).1 (by decide) (by decide),
   (c10_buffer_check 8 (List.replicate 16 0)).2.1 (by decide) (by decide)⟩
